import Mathlib

/-!
Verification of the tamper-evident audit-log core of the ent-triage-system
backend against its specification.

The Python source under `backend/app` is shallowly embedded here:

* `AuditService.compute_hash`, `AuditService.get_previous_hash` and
  `AuditService.create_log` are translated from `app/core/audit.py`;
* the `AuditLog` row model is translated from `app/models/auditLog.py`;
* the `/audit-logs` route handlers are translated from `app/routes/audit.py`;
* `verify_chain` and the store-level lock discipline have no implementation
  in the source tree and are modelled from the specification, as marked on
  their definitions.

Modelling conventions: Python `str` is `String`; `Optional[x]` is `Option`;
UUID values are abstract identifier strings (`str(uuid)` is the identity and
a UUID object is always truthy); `datetime` instants are `Nat` clock values
whose `isoformat` rendering is their decimal representation (injective, which
is all the hash input needs); the SQL row set is the list of rows in
insertion order.  SHA-256 is implemented in full over byte lists.
-/

/- ===================== SHA-256 over byte lists ===================== -/

/-- The 32-bit modulus used by every SHA-256 word operation. -/
def w32 : Nat := 4294967296

/-- Rotate a 32-bit word right by `n` bits. -/
def rotr32 (n x : Nat) : Nat :=
  ((x >>> n) ||| (x <<< (32 - n))) % w32

/-- SHA-256 choice function; the complement is taken inside 32 bits. -/
def shaCh (x y z : Nat) : Nat := (Nat.land x y) ^^^ (Nat.land (w32 - 1 - x) z)

/-- SHA-256 majority function. -/
def shaMaj (x y z : Nat) : Nat := (Nat.land x y) ^^^ (Nat.land x z) ^^^ (Nat.land y z)

/-- SHA-256 upper-case sigma 0. -/
def bigSigma0 (x : Nat) : Nat := rotr32 2 x ^^^ rotr32 13 x ^^^ rotr32 22 x

/-- SHA-256 upper-case sigma 1. -/
def bigSigma1 (x : Nat) : Nat := rotr32 6 x ^^^ rotr32 11 x ^^^ rotr32 25 x

/-- SHA-256 lower-case sigma 0. -/
def smallSigma0 (x : Nat) : Nat := rotr32 7 x ^^^ rotr32 18 x ^^^ (x >>> 3)

/-- SHA-256 lower-case sigma 1. -/
def smallSigma1 (x : Nat) : Nat := rotr32 17 x ^^^ rotr32 19 x ^^^ (x >>> 10)

/-- The 64 SHA-256 round constants. -/
def shaK : List Nat :=
  [0x428A2F98, 0x71374491, 0xB5C0FBCF, 0xE9B5DBA5, 0x3956C25B, 0x59F111F1, 0x923F82A4, 0xAB1C5ED5,
   0xD807AA98, 0x12835B01, 0x243185BE, 0x550C7DC3, 0x72BE5D74, 0x80DEB1FE, 0x9BDC06A7, 0xC19BF174,
   0xE49B69C1, 0xEFBE4786, 0x0FC19DC6, 0x240CA1CC, 0x2DE92C6F, 0x4A7484AA, 0x5CB0A9DC, 0x76F988DA,
   0x983E5152, 0xA831C66D, 0xB00327C8, 0xBF597FC7, 0xC6E00BF3, 0xD5A79147, 0x06CA6351, 0x14292967,
   0x27B70A85, 0x2E1B2138, 0x4D2C6DFC, 0x53380D13, 0x650A7354, 0x766A0ABB, 0x81C2C92E, 0x92722C85,
   0xA2BFE8A1, 0xA81A664B, 0xC24B8B70, 0xC76C51A3, 0xD192E819, 0xD6990624, 0xF40E3585, 0x106AA070,
   0x19A4C116, 0x1E376C08, 0x2748774C, 0x34B0BCB5, 0x391C0CB3, 0x4ED8AA4A, 0x5B9CCA4F, 0x682E6FF3,
   0x748F82EE, 0x78A5636F, 0x84C87814, 0x8CC70208, 0x90BEFFFA, 0xA4506CEB, 0xBEF9A3F7, 0xC67178F2]

/-- The eight 32-bit working variables of the SHA-256 compression function. -/
structure ShaState where
  a : Nat
  b : Nat
  c : Nat
  d : Nat
  e : Nat
  f : Nat
  g : Nat
  h : Nat
deriving Repr, DecidableEq

/-- The SHA-256 initial hash value. -/
def shaH0 : ShaState :=
  ⟨0x6A09E667, 0xBB67AE85, 0x3C6EF372, 0xA54FF53A, 0x510E527F, 0x9B05688C, 0x1F83D9AB, 0x5BE0CD19⟩

/-- One SHA-256 round, with `kw` the sum of the round constant and the
schedule word. -/
def shaRound (st : ShaState) (kw : Nat) : ShaState :=
  let t1 := (st.h + bigSigma1 st.e + shaCh st.e st.f st.g + kw) % w32
  let t2 := (bigSigma0 st.a + shaMaj st.a st.b st.c) % w32
  ⟨(t1 + t2) % w32, st.a, st.b, st.c, (st.d + t1) % w32, st.e, st.f, st.g⟩

/-- The next message-schedule word from the words produced so far. -/
def nextScheduleWord (w : List Nat) : Nat :=
  let n := w.length
  (smallSigma1 (w.getD (n - 2) 0) + w.getD (n - 7) 0 +
   smallSigma0 (w.getD (n - 15) 0) + w.getD (n - 16) 0) % w32

/-- Extend the 16 block words by `k` further schedule words. -/
def extendSchedule : Nat → List Nat → List Nat
  | 0, w => w
  | k + 1, w => extendSchedule k (w ++ [nextScheduleWord w])

/-- Group bytes into big-endian 32-bit words; `fuel` bounds the recursion. -/
def bytesToWords : Nat → List Nat → List Nat
  | 0, _ => []
  | _, [] => []
  | fuel + 1, l =>
      (l.getD 0 0 * 16777216 + l.getD 1 0 * 65536 + l.getD 2 0 * 256 + l.getD 3 0)
        :: bytesToWords fuel (l.drop 4)

/-- The SHA-256 compression function on one 64-byte block. -/
def compressBlock (st : ShaState) (block : List Nat) : ShaState :=
  let ws := extendSchedule 48 (bytesToWords 16 block)
  let fin := (List.zip shaK ws).foldl (fun s kw => shaRound s (kw.1 + kw.2)) st
  ⟨(st.a + fin.a) % w32, (st.b + fin.b) % w32, (st.c + fin.c) % w32, (st.d + fin.d) % w32,
   (st.e + fin.e) % w32, (st.f + fin.f) % w32, (st.g + fin.g) % w32, (st.h + fin.h) % w32⟩

/-- Split a padded message into 64-byte blocks; `fuel` bounds the recursion. -/
def toBlocks : Nat → List Nat → List (List Nat)
  | 0, _ => []
  | _, [] => []
  | fuel + 1, l => l.take 64 :: toBlocks fuel (l.drop 64)

/-- SHA-256 padding: a 1 bit, zeros to 56 mod 64, and the 64-bit big-endian
bit length. -/
def shaPad (msg : List Nat) : List Nat :=
  let len := msg.length
  let zeros := (64 - (len + 9) % 64) % 64
  let bitLen := len * 8
  msg ++ [128] ++ List.replicate zeros 0 ++
    [bitLen / 72057594037927936 % 256, bitLen / 281474976710656 % 256,
     bitLen / 1099511627776 % 256, bitLen / 4294967296 % 256,
     bitLen / 16777216 % 256, bitLen / 65536 % 256, bitLen / 256 % 256, bitLen % 256]

/-- The eight 32-bit words of the SHA-256 digest of a byte list. -/
def sha256Words (msg : List Nat) : List Nat :=
  let padded := shaPad msg
  let st := (toBlocks (padded.length / 64 + 1) padded).foldl compressBlock shaH0
  [st.a, st.b, st.c, st.d, st.e, st.f, st.g, st.h]

/-- The sixteen lowercase hexadecimal digits. -/
def hexDigits : List Char :=
  "0123456789abcdef".data

/-- The lowercase hexadecimal digit of `n` modulo 16. -/
def hexChar (n : Nat) : Char := hexDigits.getD (n % 16) '0'

/-- The eight lowercase hex digits of a 32-bit word, most significant first. -/
def hex8 (word : Nat) : List Char :=
  [hexChar (word >>> 28), hexChar (word >>> 24), hexChar (word >>> 20), hexChar (word >>> 16),
   hexChar (word >>> 12), hexChar (word >>> 8), hexChar (word >>> 4), hexChar word]

/-- `hashlib.sha256(msg).hexdigest()`: the digest as 64 lowercase hex
characters. -/
def sha256hex (msg : List Nat) : String :=
  String.mk ((sha256Words msg).flatMap hex8)

/-- UTF-8 encoding of one code point (Lean `Char` excludes surrogates). -/
def utf8EncodeChar (c : Char) : List Nat :=
  let n := c.toNat
  if n < 128 then [n]
  else if n < 2048 then [192 + n / 64, 128 + n % 64]
  else if n < 65536 then [224 + n / 4096, 128 + n / 64 % 64, 128 + n % 64]
  else [240 + n / 262144, 128 + n / 4096 % 64, 128 + n / 64 % 64, 128 + n % 64]

/-- Python `str.encode()`: UTF-8 bytes of a string. -/
def utf8Encode (s : String) : List Nat :=
  s.data.flatMap utf8EncodeChar

/- ============== Python json.dumps with sort_keys=True ============== -/

/-- A JSON value as it occurs in the hash input dictionary: a string or
null. -/
inductive Jv where
  | jnull
  | jstr (s : String)
deriving DecidableEq, Repr

/-- A Python `Optional[str]` as a JSON value: `None` serializes as null. -/
def Jv.ofOpt : Option String → Jv
  | none => .jnull
  | some s => .jstr s

/-- Four lowercase hex digits of `n`, most significant first. -/
def hex4 (n : Nat) : List Char :=
  [hexChar (n >>> 12), hexChar (n >>> 8), hexChar (n >>> 4), hexChar n]

/-- Python json string escaping with the default `ensure_ascii=True`:
quote and backslash are escaped, the five short escapes are used, every
other character outside printable ASCII becomes a `u` escape, with a
surrogate pair above the basic plane. -/
def jsonEscapeChar (c : Char) : List Char :=
  let n := c.toNat
  if c = '"' then ['\\', '"']
  else if c = '\\' then ['\\', '\\']
  else if n = 8 then ['\\', 'b']
  else if n = 9 then ['\\', 't']
  else if n = 10 then ['\\', 'n']
  else if n = 12 then ['\\', 'f']
  else if n = 13 then ['\\', 'r']
  else if 32 ≤ n ∧ n ≤ 126 then [c]
  else if n < 65536 then '\\' :: 'u' :: hex4 n
  else
    ('\\' :: 'u' :: hex4 (55296 + (n - 65536) / 1024)) ++
      ('\\' :: 'u' :: hex4 (56320 + (n - 65536) % 1024))

/-- A JSON string literal: escaped content between double quotes. -/
def jsonQuote (s : String) : String :=
  String.mk ('"' :: (s.data.flatMap jsonEscapeChar ++ ['"']))

/-- Serialization of one JSON value. -/
def Jv.render : Jv → String
  | .jnull => "null"
  | .jstr s => jsonQuote s

/-- One `key: value` member, with the default `: ` separator of
`json.dumps`. -/
def renderPair (p : String × Jv) : String :=
  jsonQuote p.1 ++ ": " ++ p.2.render

/-- Join serialized members with the default `, ` separator. -/
def joinComma : List String → String
  | [] => ""
  | [s] => s
  | s :: rest => s ++ ", " ++ joinComma rest

/-- Insert into a list sorted by `le`, before the first element not below
the inserted one. -/
def insertOrd (le : α → α → Bool) (a : α) : List α → List α
  | [] => [a]
  | b :: t => if le a b then a :: b :: t else b :: insertOrd le a t

/-- Insertion sort by `le`. -/
def sortOrd (le : α → α → Bool) (l : List α) : List α :=
  l.foldr (insertOrd le) []

/-- Python string comparison on character lists: code-point lexicographic
order, the shorter prefix first. -/
def charListLe : List Char → List Char → Bool
  | [], _ => true
  | _ :: _, [] => false
  | a :: as, b :: bs =>
      if a.toNat < b.toNat then true
      else if b.toNat < a.toNat then false
      else charListLe as bs

/-- Python `<=` on strings: code-point lexicographic order. -/
def strLe (a b : String) : Bool := charListLe a.data b.data

/-- Key order on dictionary members: Python `sort_keys=True` compares the
keys (code-point lexicographic order); dictionary keys are unique, so the
keys decide the order. -/
def pairKeyLe (a b : String × Jv) : Bool :=
  strLe a.1 b.1

/-- `json.dumps(d, sort_keys=True)` for a string-or-null dictionary given
as its members in insertion order: members sorted by key, rendered with the
default separators, between braces. -/
def jsonDumpsSorted (l : List (String × Jv)) : String :=
  "\x7b" ++ joinComma ((sortOrd pairKeyLe l).map renderPair) ++ "\x7d"

/- ===================== Data model (app/models/auditLog.py) ===================== -/

/-- The JSONB payload of the `changeDetails` column: either the
field-report object built by `AuditService.create_log` (a list of modified
field names with their count) or a free-form metadata object of string
keys and values, as a caller may supply directly. -/
inductive ChangeDetails where
  | fieldsReport (fields_modified : List String) (modified_field_count : Nat)
  | freeform (entries : List (String × String))
deriving DecidableEq, Repr

/-- One row of the `ent.AuditLog` table, fields and defaults as declared by
the `AuditLog` SQLModel: every base field defaults to null, `hash` and
`previousHash` default to null, `locked` defaults to false.  The generated
`logID` (uuid4) and `timestamp` (now) are explicit here because the
embedding passes generated values in. -/
structure AuditLog where
  actorID : Option String := none
  actorType : Option String := none
  changeDetails : Option ChangeDetails := none
  resourceID : Option String := none
  resourceType : Option String := none
  action : Option String := none
  status : Option String := none
  ipAddress : Option String := none
  logID : String
  timestamp : Nat
  hash : Option String := none
  previousHash : Option String := none
  locked : Bool := false
deriving DecidableEq, Repr

/-- `datetime.isoformat()` under the clock model: instants are `Nat` values
rendered in decimal, an injective canonical string form. -/
def isoformat (t : Nat) : String := Nat.repr t

/- ===================== AuditService (app/core/audit.py) ===================== -/

namespace AuditService

/-- `AuditService.compute_hash`: build the nine-field dictionary in source
order, serialize it with `json.dumps(hash_input, sort_keys=True)`, and
return the SHA-256 hex digest of the UTF-8 bytes. -/
def compute_hash (log_id : String)
    (actor_id actor_type resource_type resource_id : Option String)
    (action status timestamp : String)
    (previous_hash : Option String) : String :=
  let hash_input : List (String × Jv) :=
    [("logID", Jv.jstr log_id),
     ("actorID", Jv.ofOpt actor_id),
     ("actorType", Jv.ofOpt actor_type),
     ("resourceType", Jv.ofOpt resource_type),
     ("resourceID", Jv.ofOpt resource_id),
     ("action", Jv.jstr action),
     ("status", Jv.jstr status),
     ("timestamp", Jv.jstr timestamp),
     ("previousHash", Jv.ofOpt previous_hash)]
  let hash_string := jsonDumpsSorted hash_input
  sha256hex (utf8Encode hash_string)

/-- The `where` predicate of the `get_previous_hash` query: the row has the
given resource type and resource id (SQL equality against a NULL column is
false). -/
def entryMatches (rt rid : String) (e : AuditLog) : Bool :=
  e.resourceType == some rt && e.resourceID == some rid

/-- One admissible evaluation of
`ORDER BY timestamp DESC LIMIT 1` followed by `.first()` on the rows
matching the predicate: the scalar `hash` of some matching row of maximal
timestamp, or no row.  SQL fixes no order between rows sharing the maximal
timestamp, so this is a relation, not a function. -/
def firstDescResult (rows : List AuditLog) (rt rid : String)
    (res : Option (Option String)) : Prop :=
  (res = none ∧ ∀ e ∈ rows, entryMatches rt rid e = false) ∨
  (∃ e, e ∈ rows ∧ entryMatches rt rid e = true ∧
    (∀ e2 ∈ rows, entryMatches rt rid e2 = true → e2.timestamp ≤ e.timestamp) ∧
    res = some e.hash)

/-- A deterministic refinement of the query used to run the service
sequentially: scan the rows and keep a matching row of maximal timestamp
(on equal timestamps the later row in insertion order).  Whenever the
matching rows have pairwise distinct timestamps this is the only admissible
query result. -/
def maxTsMatch (rt rid : String) : List AuditLog → Option AuditLog
  | [] => none
  | e :: rest =>
      let r := maxTsMatch rt rid rest
      if entryMatches rt rid e then
        match r with
        | none => some e
        | some m => if m.timestamp < e.timestamp then some e else some m
      else r

/-- Python `result if result else None` on an optional string: `None` and
the empty string are falsy. -/
def pyTruthyOpt (r : Option String) : Option String :=
  match r with
  | some s => if s = "" then none else some s
  | none => none

/-- `AuditService.get_previous_hash`: null when either argument is falsy
(`if not resource_type or not resource_id`, so absent or the empty string),
else the truthy-filtered scalar result of the maximal-timestamp query. -/
def get_previous_hash (rows : List AuditLog)
    (resource_type resource_id : Option String) : Option String :=
  match resource_type, resource_id with
  | some rt, some rid =>
      if rt = "" ∨ rid = "" then none
      else
        match maxTsMatch rt rid rows with
        | none => none
        | some e => pyTruthyOpt e.hash
  | _, _ => none

/-- The set of results the source query may return for given arguments,
composing the truthiness guards with `firstDescResult`. -/
def getPreviousHashAdmissible (rows : List AuditLog)
    (resource_type resource_id : Option String) (r : Option String) : Prop :=
  match resource_type, resource_id with
  | some rt, some rid =>
      if rt = "" ∨ rid = "" then r = none
      else ∃ q, firstDescResult rows rt rid q ∧ r = pyTruthyOpt (q.getD none)
  | _, _ => r = none

/-- The arguments of one `AuditService.create_log` call, together with the
values the call generates internally: the uuid4 `logID` and the
`datetime.now(timezone.utc)` clock reading. -/
structure CreateLogInput where
  genLogID : String
  now : Nat
  action : String
  status : String
  actor_id : Option String := none
  actor_type : Option String := none
  resource_type : Option String := none
  resource_id : Option String := none
  fields_modified : Option (List String) := none
  ip : Option String := none
deriving DecidableEq, Repr

/-- The `changeDetails` payload built from `fields_modified` by
`create_log`: `if fields_modified:` is false for `None` and for the empty
list, otherwise the field-report object is built. -/
def buildChangeDetails (fields_modified : Option (List String)) : Option ChangeDetails :=
  match fields_modified with
  | some fs => if fs = [] then none else some (.fieldsReport fs fs.length)
  | none => none

/-- The row `create_log` constructs and inserts, given the previous-hash
value it read: all argument fields stored as given, `hash` computed over
the nine canonical fields with the read `previous_hash`. -/
def create_log_entry (inp : CreateLogInput) (previous_hash : Option String) : AuditLog :=
  { actorID := inp.actor_id
    actorType := inp.actor_type
    changeDetails := buildChangeDetails inp.fields_modified
    resourceID := inp.resource_id
    resourceType := inp.resource_type
    action := some inp.action
    status := some inp.status
    ipAddress := inp.ip
    logID := inp.genLogID
    timestamp := inp.now
    hash := some (compute_hash inp.genLogID inp.actor_id inp.actor_type
      inp.resource_type inp.resource_id inp.action inp.status
      (isoformat inp.now) previous_hash)
    previousHash := previous_hash
    locked := false }

/-- `AuditService.create_log`: read the previous hash for the resource
(`str(resource_id) if resource_id else None` is the identity on the
abstract id, a UUID object being always truthy), build the row, and commit
it at the end of the row list.  Returns the persisted row and the new row
list. -/
def create_log (rows : List AuditLog) (inp : CreateLogInput) : AuditLog × List AuditLog :=
  let previous_hash := get_previous_hash rows inp.resource_type inp.resource_id
  let e := create_log_entry inp previous_hash
  (e, rows ++ [e])

/-- `create_log` calls made in sequence: each call commits before the next
call reads.  Returns the created rows in call order and the final row
list. -/
def seqCreate (rows : List AuditLog) : List CreateLogInput → List AuditLog × List AuditLog
  | [] => ([], rows)
  | i :: rest =>
      let p := create_log rows i
      let q := seqCreate p.2 rest
      (p.1 :: q.1, q.2)

/-- Two `create_log` calls interleaved at the store level so that both
previous-hash reads execute before either insert commits.  Nothing in
`create_log` takes a lock or serializes the read with the write, so this
read-read-write-write schedule is an execution the source admits. -/
def racedCreate (rows : List AuditLog) (i1 i2 : CreateLogInput) :
    AuditLog × AuditLog × List AuditLog :=
  let prev1 := get_previous_hash rows i1.resource_type i1.resource_id
  let prev2 := get_previous_hash rows i2.resource_type i2.resource_id
  let e1 := create_log_entry i1 prev1
  let e2 := create_log_entry i2 prev2
  (e1, e2, rows ++ [e1, e2])

end AuditService

/- ===================== Routes (app/routes/audit.py) ===================== -/

/-- The response row shape of the audit routes (`AuditLogPublic`). -/
structure AuditLogPublic where
  logID : String
  timestamp : Nat
  actorID : Option String
  actorType : Option String
  changeDetails : Option ChangeDetails
  resourceID : Option String
  resourceType : Option String
  action : Option String
  status : Option String
  ipAddress : Option String
deriving DecidableEq, Repr

/-- The field-by-field copy of a stored row into the public response shape,
as written in both route handlers. -/
def toPublicView (log : AuditLog) : AuditLogPublic :=
  { logID := log.logID
    timestamp := log.timestamp
    actorID := log.actorID
    actorType := log.actorType
    changeDetails := log.changeDetails
    resourceID := log.resourceID
    resourceType := log.resourceType
    action := log.action
    status := log.status
    ipAddress := log.ipAddress }

/-- `POST /audit-logs/` (`create_audit_log`): add the caller-supplied row to
the store exactly as supplied — no hash computation, no previous-hash
lookup, no authenticated-actor requirement — commit, and return its public
view.  Returns the response and the new row list. -/
def create_audit_log (rows : List AuditLog) (log : AuditLog) :
    AuditLogPublic × List AuditLog :=
  (toPublicView log, rows ++ [log])

/-- Timestamp-descending order used by the listing route
(`ORDER BY timestamp DESC`; SQL fixes no tie order, the scan order stands
in for the planner choice). -/
def tsDescLe (a b : AuditLog) : Bool :=
  decide (b.timestamp ≤ a.timestamp)

/-- `GET /audit-logs/` (`get_audit_logs`) for an admin caller: the newest
`limit` rows and the total count; the row list is read, never written.
Returns the response and the unchanged row list. -/
def get_audit_logs (rows : List AuditLog) (limit : Nat) :
    (List AuditLogPublic × Nat) × List AuditLog :=
  ((((sortOrd tsDescLe rows).take limit).map toPublicView, rows.length), rows)

/- ============== Chain verification (modelled from the spec) ============== -/

/-- Modelled from the spec: the failure taxonomy of section 4.3, the two
reasons a chain verification can report. -/
inductive BreakReason where
  | HashMismatch
  | LinkMismatch
deriving DecidableEq, Repr

/-- Modelled from the spec: the result of `verify_chain` in section 4.3 —
`Valid`, or `Broken` naming the `logID` of the first entry at which the
chain fails and the reason. -/
inductive VerificationResult where
  | Valid
  | Broken (atLogID : String) (reason : BreakReason)
deriving DecidableEq, Repr

/-- Modelled from the spec: the write-side hash recomputed from the stored
fields of an entry (section 4.3 check (a)), via the same
`AuditService.compute_hash` the write path uses; `action` and `status` are
always set on engine-written rows, so the null default never feeds the
digest on a chain the engine wrote. -/
def recompute_hash (e : AuditLog) : String :=
  AuditService.compute_hash e.logID e.actorID e.actorType e.resourceType e.resourceID
    (e.action.getD "") (e.status.getD "") (isoformat e.timestamp) e.previousHash

/-- Ascending verification order of section 4.3: by timestamp, ties broken
by `logID` ascending (the deterministic tie-break section 4.1 requires). -/
def tsLogIdLe (a b : AuditLog) : Bool :=
  a.timestamp < b.timestamp || (a.timestamp == b.timestamp && strLe a.logID b.logID)

/-- Modelled from the spec: the per-entry scan of `verify_chain`, carrying
the stored hash of the preceding entry (null before the first).  Each entry
must link to its predecessor (check (b)) and must carry the hash recomputed
from its own stored fields (check (a)); the first failing entry is
reported.  The link is checked first: testable property 5 requires that an
entry whose `previousHash` alone was redirected is reported as
`LinkMismatch`, and `previousHash` feeds the digest, so its hash check
could not succeed. -/
def verifyFrom (prev : Option String) : List AuditLog → VerificationResult
  | [] => .Valid
  | e :: rest =>
      if e.previousHash ≠ prev then .Broken e.logID .LinkMismatch
      else if e.hash ≠ some (recompute_hash e) then .Broken e.logID .HashMismatch
      else verifyFrom e.hash rest

/-- Modelled from the spec: `verify_chain` of section 4.3, absent from the
source tree — read all entries of the resource in ascending timestamp order
with the section 4.1 tie-break, and scan them from a null previous hash. -/
def verify_chain (rows : List AuditLog) (rt rid : String) : VerificationResult :=
  verifyFrom none (sortOrd tsLogIdLe (rows.filter (fun e => AuditService.entryMatches rt rid e)))

/- ============== Store lock discipline (modelled from the spec) ============== -/

/-- Modelled from the spec: the store-level error taxonomy of section 7
relevant to mutation of locked rows. -/
inductive StoreError where
  | LockedEntryError
deriving DecidableEq, Repr

/-- Modelled from the spec: `lock(logID)` of section 4.2 — the finalization
step setting the `locked` marker of the named row. -/
def lockEntry (rows : List AuditLog) (logId : String) : List AuditLog :=
  rows.map (fun e => if e.logID = logId then { e with locked := true } else e)

/-- Modelled from the spec: a store-level row update, refused with
`LockedEntryError` whenever the addressed row is locked, regardless of the
caller. -/
def updateEntry (rows : List AuditLog) (logId : String)
    (patch : AuditLog → AuditLog) : Except StoreError (List AuditLog) :=
  if rows.any (fun e => e.logID == logId && e.locked) then .error .LockedEntryError
  else .ok (rows.map (fun e => if e.logID = logId then patch e else e))

/-- Modelled from the spec: a store-level row deletion, refused with
`LockedEntryError` whenever the addressed row is locked. -/
def deleteEntry (rows : List AuditLog) (logId : String) :
    Except StoreError (List AuditLog) :=
  if rows.any (fun e => e.logID == logId && e.locked) then .error .LockedEntryError
  else .ok (rows.filter (fun e => !(e.logID == logId)))

/-- Modelled from the spec: the row list after an update attempt — on a
refusal the store is unchanged. -/
def applyUpdate (rows : List AuditLog) (logId : String)
    (patch : AuditLog → AuditLog) : List AuditLog :=
  match updateEntry rows logId patch with
  | .error _ => rows
  | .ok r => r

/-- Modelled from the spec: the row list after a delete attempt — on a
refusal the store is unchanged. -/
def applyDelete (rows : List AuditLog) (logId : String) : List AuditLog :=
  match deleteEntry rows logId with
  | .error _ => rows
  | .ok r => r

/- ===================== Concrete scenario fixtures ===================== -/

/-- First call of the concrete three-entry chain scenario. -/
def cIn0 : AuditService.CreateLogInput :=
  { genLogID := "L0", now := 1, action := "A", status := "SUCCESS",
    resource_type := some "USER", resource_id := some "u1" }

/-- Second call of the concrete three-entry chain scenario. -/
def cIn1 : AuditService.CreateLogInput :=
  { genLogID := "L1", now := 2, action := "B", status := "SUCCESS",
    resource_type := some "USER", resource_id := some "u1" }

/-- Third call of the concrete three-entry chain scenario. -/
def cIn2 : AuditService.CreateLogInput :=
  { genLogID := "L2", now := 3, action := "C", status := "SUCCESS",
    resource_type := some "USER", resource_id := some "u1" }

/-- The first entry the scenario writes. -/
def cE0 : AuditLog := (AuditService.create_log [] cIn0).1

/-- The store after the first call. -/
def cS1 : List AuditLog := (AuditService.create_log [] cIn0).2

/-- The second entry the scenario writes. -/
def cE1 : AuditLog := (AuditService.create_log cS1 cIn1).1

/-- The store after the second call. -/
def cS2 : List AuditLog := (AuditService.create_log cS1 cIn1).2

/-- The third entry the scenario writes. -/
def cE2 : AuditLog := (AuditService.create_log cS2 cIn2).1

/-- The store after the third call: a valid three-entry chain. -/
def cS3 : List AuditLog := (AuditService.create_log cS2 cIn2).2

/-- The chain store with the `status` of the interior entry flipped in
place, downstream hashes not recomputed. -/
def tamperStatusStore : List AuditLog :=
  [cE0, { cE1 with status := some "FAIL" }, cE2]

/-- A 64-character hex string that is not the stored hash of any entry of
the scenario. -/
def strayHash : String := String.mk (List.replicate 64 '0')

/-- The chain store with only the `previousHash` of the interior entry
redirected elsewhere. -/
def tamperLinkStore : List AuditLog :=
  [cE0, { cE1 with previousHash := some strayHash }, cE2]

/-- The chain store with the `ipAddress` of the interior entry altered — a
stored field that does not feed `compute_hash`. -/
def tamperIpStore : List AuditLog :=
  [cE0, { cE1 with ipAddress := some "10.0.0.9" }, cE2]

/- ===================== Sorting lemmas ===================== -/

theorem insertOrd_perm {α : Type} (le : α → α → Bool) (a : α) (l : List α) :
    List.Perm (insertOrd le a l) (a :: l) := by
  induction l with
  | nil => simp [insertOrd]
  | cons b t ih =>
      simp only [insertOrd]
      by_cases h : le a b = true
      · rw [if_pos h]
      · rw [if_neg h]
        exact (ih.cons b).trans (List.Perm.swap a b t)

theorem sortOrd_perm {α : Type} (le : α → α → Bool) (l : List α) :
    List.Perm (sortOrd le l) l := by
  induction l with
  | nil => simp [sortOrd]
  | cons a t ih =>
      have h1 : sortOrd le (a :: t) = insertOrd le a (sortOrd le t) := rfl
      rw [h1]
      exact (insertOrd_perm le a (sortOrd le t)).trans (ih.cons a)

theorem insertOrd_sorted {α : Type} (le : α → α → Bool)
    (htot : ∀ x y, le x y = false → le y x = true)
    (htrans : ∀ x y z, le x y = true → le y z = true → le x z = true)
    (a : α) (l : List α) (hl : l.Pairwise (fun x y => le x y = true)) :
    (insertOrd le a l).Pairwise (fun x y => le x y = true) := by
  induction l with
  | nil => simp [insertOrd]
  | cons b t ih =>
      simp only [insertOrd]
      rcases List.pairwise_cons.mp hl with ⟨hbt, ht⟩
      by_cases h : le a b = true
      · rw [if_pos h]
        refine List.pairwise_cons.mpr ⟨?_, hl⟩
        intro y hy
        rcases List.mem_cons.mp hy with rfl | hy
        · exact h
        · exact htrans a b y h (hbt y hy)
      · rw [if_neg h]
        refine List.pairwise_cons.mpr ⟨?_, ih ht⟩
        intro y hy
        rcases List.mem_cons.mp ((insertOrd_perm le a t).mem_iff.mp hy) with hya | hy
        · rw [hya]
          exact htot a b (Bool.eq_false_iff.mpr h)
        · exact hbt y hy

theorem sortOrd_sorted {α : Type} (le : α → α → Bool)
    (htot : ∀ x y, le x y = false → le y x = true)
    (htrans : ∀ x y z, le x y = true → le y z = true → le x z = true)
    (l : List α) : (sortOrd le l).Pairwise (fun x y => le x y = true) := by
  induction l with
  | nil => simp [sortOrd]
  | cons a t ih => exact insertOrd_sorted le htot htrans a (sortOrd le t) ih

theorem sortOrd_eq_self {α : Type} (le : α → α → Bool) (l : List α)
    (hl : l.Pairwise (fun x y => le x y = true)) : sortOrd le l = l := by
  induction l with
  | nil => rfl
  | cons a t ih =>
      rcases List.pairwise_cons.mp hl with ⟨hat, ht⟩
      have h1 : sortOrd le (a :: t) = insertOrd le a (sortOrd le t) := rfl
      rw [h1, ih ht]
      cases t with
      | nil => rfl
      | cons b t2 =>
          have hb : le a b = true := hat b (List.mem_cons_self b t2)
          simp [insertOrd, hb]

theorem sorted_perm_eq {α : Type} (le : α → α → Bool) :
    ∀ (l1 l2 : List α), List.Perm l1 l2 →
    l1.Pairwise (fun x y => le x y = true) →
    l2.Pairwise (fun x y => le x y = true) →
    (∀ a, a ∈ l1 → ∀ b, b ∈ l1 → le a b = true → le b a = true → a = b) →
    l1 = l2 := by
  intro l1
  induction l1 with
  | nil =>
      intro l2 hp _ _ _
      exact (hp.symm.eq_nil).symm
  | cons a t1 ih =>
      intro l2 hp h1 h2 hanti
      cases l2 with
      | nil => exact absurd hp.eq_nil (by simp)
      | cons b t2 =>
          rcases List.pairwise_cons.mp h1 with ⟨hat1, ht1⟩
          rcases List.pairwise_cons.mp h2 with ⟨hbt2, ht2⟩
          by_cases hab : a = b
          · subst hab
            have htl : List.Perm t1 t2 := hp.cons_inv
            have heq := ih t2 htl ht1 ht2
              (fun x hx y hy => hanti x (List.mem_cons_of_mem a hx) y (List.mem_cons_of_mem a hy))
            rw [heq]
          · have ha2 : a ∈ t2 := by
              rcases List.mem_cons.mp (hp.mem_iff.mp (List.mem_cons_self a t1)) with h | h
              · exact absurd h hab
              · exact h
            have hb1 : b ∈ t1 := by
              rcases List.mem_cons.mp (hp.symm.mem_iff.mp (List.mem_cons_self b t2)) with h | h
              · exact absurd h.symm hab
              · exact h
            have hab1 : le a b = true := hat1 b hb1
            have hba1 : le b a = true := hbt2 a ha2
            exact absurd (hanti a (List.mem_cons_self a t1) b (List.mem_cons_of_mem a hb1) hab1 hba1) hab

/- ===================== Code-point order lemmas ===================== -/

theorem charListLe_total : ∀ (x y : List Char),
    charListLe x y = false → charListLe y x = true := by
  intro x
  induction x with
  | nil => intro y h; simp [charListLe] at h
  | cons a as ih =>
      intro y h
      cases y with
      | nil => simp [charListLe]
      | cons b bs =>
          simp only [charListLe] at h ⊢
          by_cases h1 : a.toNat < b.toNat
          · simp [h1] at h
          · by_cases h2 : b.toNat < a.toNat
            · simp [h2]
            · simp only [h1, h2, if_false] at h
              simp only [h1, h2, if_false]
              exact ih bs h

theorem charListLe_trans : ∀ (x y z : List Char),
    charListLe x y = true → charListLe y z = true → charListLe x z = true := by
  intro x
  induction x with
  | nil => intro y z _ _; simp [charListLe]
  | cons a as ih =>
      intro y z hxy hyz
      cases y with
      | nil => simp [charListLe] at hxy
      | cons b bs =>
          cases z with
          | nil => simp [charListLe] at hyz
          | cons c cs =>
              simp only [charListLe] at hxy hyz ⊢
              by_cases h1 : a.toNat < b.toNat
              · by_cases h2 : b.toNat < c.toNat
                · have h5 : a.toNat < c.toNat := Nat.lt_trans h1 h2
                  simp [h5]
                · by_cases h3 : c.toNat < b.toNat
                  · simp [h2, h3] at hyz
                  · have hbc : b.toNat = c.toNat :=
                      Nat.le_antisymm (Nat.le_of_not_lt h3) (Nat.le_of_not_lt h2)
                    have h5 : a.toNat < c.toNat := hbc ▸ h1
                    simp [h5]
              · by_cases h4 : b.toNat < a.toNat
                · simp [h1, h4] at hxy
                · have hab : a.toNat = b.toNat :=
                    Nat.le_antisymm (Nat.le_of_not_lt h4) (Nat.le_of_not_lt h1)
                  by_cases h2 : b.toNat < c.toNat
                  · have h5 : a.toNat < c.toNat := hab ▸ h2
                    simp [h5]
                  · by_cases h3 : c.toNat < b.toNat
                    · simp [h2, h3] at hyz
                    · have hbc : b.toNat = c.toNat :=
                        Nat.le_antisymm (Nat.le_of_not_lt h3) (Nat.le_of_not_lt h2)
                      have g1 : ¬ a.toNat < c.toNat := by omega
                      have g2 : ¬ c.toNat < a.toNat := by omega
                      simp only [h1, h4, if_false] at hxy
                      simp only [h2, h3, if_false] at hyz
                      simp only [g1, g2, if_false]
                      exact ih bs cs hxy hyz

theorem charListLe_antisymm : ∀ (x y : List Char),
    charListLe x y = true → charListLe y x = true → x = y := by
  intro x
  induction x with
  | nil =>
      intro y _ hyx
      cases y with
      | nil => rfl
      | cons b bs => simp [charListLe] at hyx
  | cons a as ih =>
      intro y hxy hyx
      cases y with
      | nil => simp [charListLe] at hxy
      | cons b bs =>
          simp only [charListLe] at hxy hyx
          by_cases h1 : a.toNat < b.toNat
          · have h2 : ¬ b.toNat < a.toNat := by omega
            have h3 : ¬ a.toNat = b.toNat := by omega
            simp [h1, h2, h3] at hyx
          · by_cases h2 : b.toNat < a.toNat
            · simp [h1, h2] at hxy
            · have hab : a.toNat = b.toNat := by omega
              have hch : a = b := Char.eq_of_val_eq (UInt32.ext hab)
              subst hch
              simp only [h1, h2, if_false] at hxy hyx
              rw [ih bs hxy hyx]

theorem strLe_total (x y : String) : strLe x y = false → strLe y x = true :=
  charListLe_total x.data y.data

theorem strLe_trans (x y z : String) :
    strLe x y = true → strLe y z = true → strLe x z = true :=
  charListLe_trans x.data y.data z.data

theorem strLe_antisymm (x y : String) :
    strLe x y = true → strLe y x = true → x = y := by
  intro h1 h2
  cases x with
  | mk xd =>
      cases y with
      | mk yd =>
          have h3 := charListLe_antisymm xd yd h1 h2
          rw [h3]

/- ===================== Digest shape lemmas ===================== -/

theorem sha256hex_length (msg : List Nat) : (sha256hex msg).length = 64 := rfl

theorem sha256hex_ne_empty (msg : List Nat) : sha256hex msg ≠ "" := by
  intro h
  have h1 := sha256hex_length msg
  rw [h] at h1
  exact absurd h1 (by decide)

theorem hexChar_mem (n : Nat) : hexChar n ∈ hexDigits := by
  unfold hexChar
  have h : n % 16 < hexDigits.length := Nat.mod_lt n (by decide)
  rw [List.getD_eq_getElem hexDigits '0' h]
  exact List.getElem_mem h

theorem mem_sha256hex_hexDigits (msg : List Nat) (c : Char)
    (hc : c ∈ (sha256hex msg).data) : c ∈ hexDigits := by
  have h1 : (sha256hex msg).data = (sha256Words msg).flatMap hex8 := rfl
  rw [h1] at hc
  rcases List.mem_flatMap.mp hc with ⟨w, _, hw⟩
  simp only [hex8, List.mem_cons, List.not_mem_nil, or_false] at hw
  rcases hw with rfl | rfl | rfl | rfl | rfl | rfl | rfl | rfl <;> exact hexChar_mem _

theorem compute_hash_length (log_id : String)
    (actor_id actor_type resource_type resource_id : Option String)
    (action status timestamp : String) (previous_hash : Option String) :
    (AuditService.compute_hash log_id actor_id actor_type resource_type resource_id
      action status timestamp previous_hash).length = 64 :=
  sha256hex_length _

theorem compute_hash_ne_empty (log_id : String)
    (actor_id actor_type resource_type resource_id : Option String)
    (action status timestamp : String) (previous_hash : Option String) :
    AuditService.compute_hash log_id actor_id actor_type resource_type resource_id
      action status timestamp previous_hash ≠ "" :=
  sha256hex_ne_empty _

/- ===================== Previous-hash query lemmas ===================== -/

namespace AuditService

theorem maxTsMatch_eq_none_of (rt rid : String) (rows : List AuditLog)
    (h : ∀ e ∈ rows, entryMatches rt rid e = false) :
    maxTsMatch rt rid rows = none := by
  induction rows with
  | nil => rfl
  | cons a rest ih =>
      have ha : entryMatches rt rid a = false := h a (List.mem_cons_self a rest)
      have hr : maxTsMatch rt rid rest = none :=
        ih (fun e he => h e (List.mem_cons_of_mem a he))
      simp [maxTsMatch, ha, hr]

theorem maxTsMatch_none_forall (rt rid : String) (rows : List AuditLog)
    (h : maxTsMatch rt rid rows = none) :
    ∀ e ∈ rows, entryMatches rt rid e = false := by
  induction rows with
  | nil => intro e he; exact absurd he (List.not_mem_nil e)
  | cons a rest ih =>
      intro e he
      by_cases ha : entryMatches rt rid a = true
      · rcases hr : maxTsMatch rt rid rest with _ | m
        · have hstep : maxTsMatch rt rid (a :: rest) = some a := by
            simp [maxTsMatch, ha, hr]
          rw [hstep] at h
          exact absurd h (by simp)
        · by_cases hc : m.timestamp < a.timestamp
          · have hstep : maxTsMatch rt rid (a :: rest) = some a := by
              simp [maxTsMatch, ha, hr, hc]
            rw [hstep] at h
            exact absurd h (by simp)
          · have hstep : maxTsMatch rt rid (a :: rest) = some m := by
              simp [maxTsMatch, ha, hr, hc]
            rw [hstep] at h
            exact absurd h (by simp)
      · have hstep : maxTsMatch rt rid (a :: rest) = maxTsMatch rt rid rest := by
          simp [maxTsMatch, ha]
        rw [hstep] at h
        rcases List.mem_cons.mp he with rfl | he2
        · exact Bool.eq_false_iff.mpr ha
        · exact ih h e he2

theorem maxTsMatch_spec (rt rid : String) (rows : List AuditLog) (m : AuditLog)
    (h : maxTsMatch rt rid rows = some m) :
    m ∈ rows ∧ entryMatches rt rid m = true ∧
    ∀ e2 ∈ rows, entryMatches rt rid e2 = true → e2.timestamp ≤ m.timestamp := by
  induction rows generalizing m with
  | nil => exact absurd h (by simp [maxTsMatch])
  | cons a rest ih =>
      by_cases ha : entryMatches rt rid a = true
      · rcases hr : maxTsMatch rt rid rest with _ | mb
        · have hstep : maxTsMatch rt rid (a :: rest) = some a := by
            simp [maxTsMatch, ha, hr]
          rw [hstep] at h
          have hm : m = a := by cases h; rfl
          subst hm
          refine ⟨List.mem_cons_self m rest, ha, ?_⟩
          intro e2 he2 hm2
          rcases List.mem_cons.mp he2 with rfl | he3
          · exact Nat.le_refl _
          · exact absurd hm2 (by simp [maxTsMatch_none_forall rt rid rest hr e2 he3])
        · rcases ih mb hr with ⟨hmem, hmatch, hmax⟩
          by_cases hc : mb.timestamp < a.timestamp
          · have hstep : maxTsMatch rt rid (a :: rest) = some a := by
              simp [maxTsMatch, ha, hr, hc]
            rw [hstep] at h
            have hm : m = a := by cases h; rfl
            subst hm
            refine ⟨List.mem_cons_self m rest, ha, ?_⟩
            intro e2 he2 hm2
            rcases List.mem_cons.mp he2 with rfl | he3
            · exact Nat.le_refl _
            · exact Nat.le_trans (hmax e2 he3 hm2) (Nat.le_of_lt hc)
          · have hstep : maxTsMatch rt rid (a :: rest) = some mb := by
              simp [maxTsMatch, ha, hr, hc]
            rw [hstep] at h
            have hm : m = mb := by cases h; rfl
            subst hm
            refine ⟨List.mem_cons_of_mem a hmem, hmatch, ?_⟩
            intro e2 he2 hm2
            rcases List.mem_cons.mp he2 with rfl | he3
            · exact Nat.le_of_not_lt hc
            · exact hmax e2 he3 hm2
      · have hstep : maxTsMatch rt rid (a :: rest) = maxTsMatch rt rid rest := by
          simp [maxTsMatch, ha]
        rw [hstep] at h
        rcases ih m h with ⟨hmem, hmatch, hmax⟩
        refine ⟨List.mem_cons_of_mem a hmem, hmatch, ?_⟩
        intro e2 he2 hm2
        rcases List.mem_cons.mp he2 with rfl | he3
        · exact absurd hm2 (by simp [ha])
        · exact hmax e2 he3 hm2

theorem maxTsMatch_append_new (rt rid : String) (rows : List AuditLog) (e : AuditLog)
    (hm : entryMatches rt rid e = true)
    (hgt : ∀ x ∈ rows, entryMatches rt rid x = true → x.timestamp < e.timestamp) :
    maxTsMatch rt rid (rows ++ [e]) = some e := by
  induction rows with
  | nil => simp [maxTsMatch, hm]
  | cons a rest ih =>
      have hr : maxTsMatch rt rid (rest ++ [e]) = some e :=
        ih (fun x hx => hgt x (List.mem_cons_of_mem a hx))
      by_cases ha : entryMatches rt rid a = true
      · have hlt : a.timestamp < e.timestamp := hgt a (List.mem_cons_self a rest) ha
        have hnlt : ¬ e.timestamp < a.timestamp := by omega
        simp [maxTsMatch, List.cons_append, ha, hr, hnlt]
      · simp [maxTsMatch, List.cons_append, ha, hr]

theorem get_previous_hash_admissible (rows : List AuditLog)
    (resource_type resource_id : Option String) :
    getPreviousHashAdmissible rows resource_type resource_id
      (get_previous_hash rows resource_type resource_id) := by
  rcases resource_type with _ | s
  · simp [getPreviousHashAdmissible, get_previous_hash]
  · rcases resource_id with _ | t
    · simp [getPreviousHashAdmissible, get_previous_hash]
    · simp only [getPreviousHashAdmissible, get_previous_hash]
      by_cases hempty : s = "" ∨ t = ""
      · rw [if_pos hempty, if_pos hempty]
      · rw [if_neg hempty, if_neg hempty]
        rcases h : maxTsMatch s t rows with _ | m
        · refine ⟨none, Or.inl ⟨rfl, maxTsMatch_none_forall s t rows h⟩, rfl⟩
        · rcases maxTsMatch_spec s t rows m h with ⟨hmem, hmatch, hmax⟩
          exact ⟨some m.hash, Or.inr ⟨m, hmem, hmatch, hmax, rfl⟩, rfl⟩

theorem get_previous_hash_append_new (s t : String) (hs : ¬ (s = "" ∨ t = ""))
    (rows : List AuditLog) (e : AuditLog)
    (hm : entryMatches s t e = true)
    (hgt : ∀ x ∈ rows, entryMatches s t x = true → x.timestamp < e.timestamp)
    (h64 : String) (hh : e.hash = some h64) (hne : h64 ≠ "") :
    get_previous_hash (rows ++ [e]) (some s) (some t) = e.hash := by
  have hmax := maxTsMatch_append_new s t rows e hm hgt
  simp [get_previous_hash, hs, hmax, hh, pyTruthyOpt, hne]

end AuditService

/- ===================== Chain predicates ===================== -/

/-- The hash-chain linkage of invariant I1 along a list of entries in chain
order: every entry carries the stored hash of its predecessor. -/
def chainLinked : List AuditLog → Prop :=
  List.Chain' (fun a b => b.previousHash = a.hash)

/-- The first entry of the list, when there is one, carries the given
previous-hash value. -/
def headPrevIs (p : Option String) : List AuditLog → Prop
  | [] => True
  | e :: _ => e.previousHash = p

/- ===================== Chain construction lemmas ===================== -/

theorem create_log_entry_matches (i : AuditService.CreateLogInput)
    (p : Option String) (s t : String)
    (h1 : i.resource_type = some s) (h2 : i.resource_id = some t) :
    AuditService.entryMatches s t (AuditService.create_log_entry i p) = true := by
  simp [AuditService.entryMatches, AuditService.create_log_entry, h1, h2]

theorem create_log_entry_recompute (i : AuditService.CreateLogInput) (p : Option String) :
    recompute_hash (AuditService.create_log_entry i p)
      = AuditService.compute_hash i.genLogID i.actor_id i.actor_type
          i.resource_type i.resource_id i.action i.status (isoformat i.now) p := by
  simp [recompute_hash, AuditService.create_log_entry]

theorem create_log_entry_hash_self (i : AuditService.CreateLogInput) (p : Option String) :
    (AuditService.create_log_entry i p).hash
      = some (recompute_hash (AuditService.create_log_entry i p)) := by
  rw [create_log_entry_recompute]
  rfl

theorem seqCreate_spec (s t : String) (hs : s ≠ "") (ht : t ≠ "") :
    ∀ (inputs : List AuditService.CreateLogInput) (rows : List AuditLog),
    (∀ i ∈ inputs, i.resource_type = some s ∧ i.resource_id = some t) →
    List.Pairwise (fun x y => x < y) (inputs.map AuditService.CreateLogInput.now) →
    (∀ e ∈ rows, AuditService.entryMatches s t e = true →
        ∀ i ∈ inputs, e.timestamp < i.now) →
    (AuditService.seqCreate rows inputs).1.length = inputs.length ∧
    (AuditService.seqCreate rows inputs).2 = rows ++ (AuditService.seqCreate rows inputs).1 ∧
    (AuditService.seqCreate rows inputs).1.map AuditLog.timestamp
      = inputs.map AuditService.CreateLogInput.now ∧
    (∀ e ∈ (AuditService.seqCreate rows inputs).1,
        AuditService.entryMatches s t e = true ∧
        e.hash = some (recompute_hash e) ∧
        ∃ h64, e.hash = some h64 ∧ h64.length = 64) ∧
    headPrevIs (AuditService.get_previous_hash rows (some s) (some t))
      (AuditService.seqCreate rows inputs).1 ∧
    chainLinked (AuditService.seqCreate rows inputs).1 := by
  intro inputs
  induction inputs with
  | nil =>
      intro rows _ _ _
      refine ⟨rfl, by simp [AuditService.seqCreate], rfl, ?_, trivial, ?_⟩
      · intro e he; exact absurd he (List.not_mem_nil e)
      · exact List.chain'_nil
  | cons i rest ih =>
      intro rows hsame hpair hold
      obtain ⟨h1i, h2i⟩ := hsame i (List.mem_cons_self i rest)
      have hse : ¬ (s = "" ∨ t = "") := by simp [hs, ht]
      have hE : (AuditService.create_log rows i).1
          = AuditService.create_log_entry i
              (AuditService.get_previous_hash rows (some s) (some t)) := by
        simp [AuditService.create_log, h1i, h2i]
      have hpc : (∀ j ∈ rest, i.now < j.now) ∧ List.Pairwise (fun x y => x < y)
          (rest.map AuditService.CreateLogInput.now) := by simpa using hpair
      have hpair2 : List.Pairwise (fun x y => x < y)
          (rest.map AuditService.CreateLogInput.now) := hpc.2
      have hpairhead : ∀ j ∈ rest, i.now < j.now := hpc.1
      have htsE : (AuditService.create_log rows i).1.timestamp = i.now := by
        rw [hE]; rfl
      have hmatchE : AuditService.entryMatches s t (AuditService.create_log rows i).1 = true := by
        rw [hE]; exact create_log_entry_matches i _ s t h1i h2i
      have hhashE : (AuditService.create_log rows i).1.hash
          = some (recompute_hash (AuditService.create_log rows i).1) := by
        rw [hE]; exact create_log_entry_hash_self i _
      have hlen64E : ∃ h64, (AuditService.create_log rows i).1.hash = some h64 ∧ h64.length = 64 := by
        rw [hE]
        exact ⟨_, rfl, compute_hash_length _ _ _ _ _ _ _ _ _⟩
      have hgtE : ∀ x ∈ rows, AuditService.entryMatches s t x = true →
          x.timestamp < (AuditService.create_log rows i).1.timestamp := by
        intro x hx hmx
        rw [htsE]
        exact hold x hx hmx i (List.mem_cons_self i rest)
      have hS : (AuditService.create_log rows i).2
          = rows ++ [(AuditService.create_log rows i).1] := rfl
      obtain ⟨h64, hh64, hlen64⟩ := hlen64E
      have hne64 : h64 ≠ "" := by
        intro hcon
        rw [hcon] at hlen64
        exact absurd hlen64 (by decide)
      have hprev2 : AuditService.get_previous_hash
          (rows ++ [(AuditService.create_log rows i).1]) (some s) (some t)
          = (AuditService.create_log rows i).1.hash :=
        AuditService.get_previous_hash_append_new s t hse rows _ hmatchE hgtE h64 hh64 hne64
      have hold2 : ∀ e ∈ (AuditService.create_log rows i).2,
          AuditService.entryMatches s t e = true → ∀ j ∈ rest, e.timestamp < j.now := by
        intro e he hme j hj
        rw [hS] at he
        rcases List.mem_append.mp he with he1 | he2
        · exact Nat.lt_trans (hold e he1 hme i (List.mem_cons_self i rest))
            (hpairhead j hj)
        · have he3 : e = (AuditService.create_log rows i).1 := by
            rcases List.mem_cons.mp he2 with h | h
            · exact h
            · exact absurd h (List.not_mem_nil e)
          rw [he3, htsE]
          exact hpairhead j hj
      obtain ⟨ihlen, ihfinal, ihmap, ihall, ihhead, ihchain⟩ :=
        ih (AuditService.create_log rows i).2
          (fun j hj => hsame j (List.mem_cons_of_mem i hj)) hpair2 hold2
      have hseq1 : (AuditService.seqCreate rows (i :: rest)).1
          = (AuditService.create_log rows i).1
            :: (AuditService.seqCreate (AuditService.create_log rows i).2 rest).1 := rfl
      have hseq2 : (AuditService.seqCreate rows (i :: rest)).2
          = (AuditService.seqCreate (AuditService.create_log rows i).2 rest).2 := rfl
      refine ⟨?_, ?_, ?_, ?_, ?_, ?_⟩
      · rw [hseq1]
        simp [ihlen]
      · rw [hseq2, hseq1, ihfinal, hS]
        simp
      · rw [hseq1]
        simp only [List.map_cons, htsE, ihmap]
      · rw [hseq1]
        intro e he
        rcases List.mem_cons.mp he with rfl | he2
        · exact ⟨hmatchE, hhashE, h64, hh64, hlen64⟩
        · exact ihall e he2
      · rw [hseq1]
        show (AuditService.create_log rows i).1.previousHash
          = AuditService.get_previous_hash rows (some s) (some t)
        rw [hE]
        rfl
      · rw [hseq1]
        refine List.chain'_cons'.mpr ⟨?_, ihchain⟩
        intro b hb
        rcases hes : (AuditService.seqCreate (AuditService.create_log rows i).2 rest).1 with
          _ | ⟨b2, tl⟩
        · rw [hes] at hb; exact absurd hb (by simp)
        · rw [hes] at hb
          have hb2 : b = b2 := by
            simp only [List.head?] at hb
            cases hb
            rfl
          rw [hes] at ihhead
          have hbp : b2.previousHash
              = AuditService.get_previous_hash (AuditService.create_log rows i).2 (some s) (some t) :=
            ihhead
          rw [hb2, hbp, hS, hprev2]

/- ===================== Verification lemmas ===================== -/

theorem verifyFrom_valid : ∀ (es : List AuditLog) (prev : Option String),
    headPrevIs prev es → chainLinked es →
    (∀ e ∈ es, e.hash = some (recompute_hash e)) →
    verifyFrom prev es = .Valid := by
  intro es
  induction es with
  | nil => intro prev _ _ _; rfl
  | cons e rest ih =>
      intro prev hh hc hhash
      have h1 : e.previousHash = prev := hh
      have h2 : e.hash = some (recompute_hash e) := hhash e (List.mem_cons_self e rest)
      have hcc := List.chain'_cons'.mp hc
      simp only [verifyFrom]
      rw [if_neg (by simp [h1]), if_neg (by simp [h2])]
      apply ih e.hash
      · cases rest with
        | nil => trivial
        | cons b tl =>
            have hb : b.previousHash = e.hash := hcc.1 b rfl
            exact hb
      · exact hcc.2
      · intro x hx
        exact hhash x (List.mem_cons_of_mem e hx)

theorem get_previous_hash_none_of_nomatch (s t : String) (rows : List AuditLog)
    (hnomatch : ∀ e ∈ rows, AuditService.entryMatches s t e = false) :
    AuditService.get_previous_hash rows (some s) (some t) = none := by
  have hred : AuditService.get_previous_hash rows (some s) (some t)
      = if s = "" ∨ t = "" then none
        else match AuditService.maxTsMatch s t rows with
          | none => none
          | some e => AuditService.pyTruthyOpt e.hash := rfl
  rw [hred, AuditService.maxTsMatch_eq_none_of s t rows hnomatch]
  split_ifs <;> rfl

theorem verify_chain_seqCreate_valid (s t : String) (hs : s ≠ "") (ht : t ≠ "")
    (inputs : List AuditService.CreateLogInput) (rows : List AuditLog)
    (hsame : ∀ i ∈ inputs, i.resource_type = some s ∧ i.resource_id = some t)
    (hpair : List.Pairwise (fun x y => x < y) (inputs.map AuditService.CreateLogInput.now))
    (hnomatch : ∀ e ∈ rows, AuditService.entryMatches s t e = false) :
    verify_chain (AuditService.seqCreate rows inputs).2 s t = .Valid := by
  have hold : ∀ e ∈ rows, AuditService.entryMatches s t e = true →
      ∀ i ∈ inputs, e.timestamp < i.now := by
    intro e he hm
    exact absurd hm (by simp [hnomatch e he])
  obtain ⟨_, hfinal, hmap, hall, hhead, hchain⟩ :=
    seqCreate_spec s t hs ht inputs rows hsame hpair hold
  have hfilter : (AuditService.seqCreate rows inputs).2.filter
      (fun e => AuditService.entryMatches s t e)
      = (AuditService.seqCreate rows inputs).1 := by
    rw [hfinal, List.filter_append]
    have h1 : rows.filter (fun e => AuditService.entryMatches s t e) = [] := by
      rw [List.filter_eq_nil_iff]
      intro a ha
      simp [hnomatch a ha]
    have h2 : (AuditService.seqCreate rows inputs).1.filter
        (fun e => AuditService.entryMatches s t e)
        = (AuditService.seqCreate rows inputs).1 := by
      rw [List.filter_eq_self]
      intro a ha
      simp [(hall a ha).1]
    rw [h1, h2, List.nil_append]
  have hpairts : List.Pairwise (fun a b => a.timestamp < b.timestamp)
      (AuditService.seqCreate rows inputs).1 := by
    have h3 : List.Pairwise (fun x y => x < y)
        ((AuditService.seqCreate rows inputs).1.map AuditLog.timestamp) := by
      rw [hmap]; exact hpair
    exact (List.pairwise_map.mp h3)
  have hsorted : sortOrd tsLogIdLe (AuditService.seqCreate rows inputs).1
      = (AuditService.seqCreate rows inputs).1 := by
    apply sortOrd_eq_self
    apply hpairts.imp
    intro a b hab
    simp only [tsLogIdLe, Bool.or_eq_true, decide_eq_true_eq]
    exact Or.inl hab
  have hheadnone : headPrevIs none (AuditService.seqCreate rows inputs).1 := by
    rw [get_previous_hash_none_of_nomatch s t rows hnomatch] at hhead
    exact hhead
  unfold verify_chain
  rw [hfilter, hsorted]
  exact verifyFrom_valid _ none hheadnone hchain (fun e he => (hall e he).2.1)

/- ===================== Claim C1 ===================== -/

/-- First call of the C1 counterexample scenario: a non-null but empty
`resource_type`. -/
def emptyRtIn0 : AuditService.CreateLogInput :=
  { genLogID := "E0", now := 1, action := "A", status := "SUCCESS",
    resource_type := some "", resource_id := some "u1" }

/-- Second call of the C1 counterexample scenario. -/
def emptyRtIn1 : AuditService.CreateLogInput :=
  { genLogID := "E1", now := 2, action := "B", status := "SUCCESS",
    resource_type := some "", resource_id := some "u1" }

/-- C1, counterexample to the claim as stated: two sequential `create_log`
calls for the same non-null `(resourceType, resourceID)` pair —
`resource_type` is `some ""`, which is not null — produce entries that do
not form a hash chain: both entries carry a null `previousHash` while the
first entry carries a non-null hash, because `get_previous_hash` treats the
empty string as absent (`if not resource_type`). -/
theorem C1_empty_resource_type_counterexample :
    emptyRtIn0.resource_type = some "" ∧
    emptyRtIn1.resource_type = some "" ∧
    (AuditService.seqCreate [] [emptyRtIn0, emptyRtIn1]).1.map AuditLog.previousHash
      = [none, none] ∧
    (∃ h0 h1, (AuditService.seqCreate [] [emptyRtIn0, emptyRtIn1]).1.map AuditLog.hash
      = [some h0, some h1]) ∧
    ((AuditService.seqCreate [] [emptyRtIn0, emptyRtIn1]).1.map AuditLog.previousHash).getD 1 (some "x")
      ≠ ((AuditService.seqCreate [] [emptyRtIn0, emptyRtIn1]).1.map AuditLog.hash).getD 0 none := by
  refine ⟨rfl, rfl, rfl, ⟨_, _, rfl⟩, ?_⟩
  intro hcon
  exact Option.noConfusion hcon

/-- C1 (amended): starting from a store holding no entry for the resource,
N `create_log` calls made in sequence for the same non-null and non-empty
`(resourceType, resourceID)` with strictly increasing clock readings
produce N entries whose call order is their timestamp order and which form
a hash chain: the first entry carries a null `previousHash` and every later
entry carries the stored hash of its predecessor. -/
theorem C1_sequential_chain (s t : String) (hs : s ≠ "") (ht : t ≠ "")
    (inputs : List AuditService.CreateLogInput) (rows : List AuditLog)
    (hsame : ∀ i ∈ inputs, i.resource_type = some s ∧ i.resource_id = some t)
    (hpair : List.Pairwise (fun x y => x < y) (inputs.map AuditService.CreateLogInput.now))
    (hnomatch : ∀ e ∈ rows, AuditService.entryMatches s t e = false) :
    (AuditService.seqCreate rows inputs).1.length = inputs.length ∧
    List.Pairwise (fun a b => a.timestamp < b.timestamp)
      (AuditService.seqCreate rows inputs).1 ∧
    headPrevIs none (AuditService.seqCreate rows inputs).1 ∧
    chainLinked (AuditService.seqCreate rows inputs).1 := by
  have hold : ∀ e ∈ rows, AuditService.entryMatches s t e = true →
      ∀ i ∈ inputs, e.timestamp < i.now := by
    intro e he hm
    exact absurd hm (by simp [hnomatch e he])
  obtain ⟨hlen, _, hmap, _, hhead, hchain⟩ :=
    seqCreate_spec s t hs ht inputs rows hsame hpair hold
  refine ⟨hlen, ?_, ?_, hchain⟩
  · have h3 : List.Pairwise (fun x y => x < y)
        ((AuditService.seqCreate rows inputs).1.map AuditLog.timestamp) := by
      rw [hmap]; exact hpair
    exact List.pairwise_map.mp h3
  · rw [get_previous_hash_none_of_nomatch s t rows hnomatch] at hhead
    exact hhead

/-- C1, witness: the amended chain theorem applied to the concrete
three-call scenario on an empty store. -/
theorem C1_sequential_chain_witness :
    (AuditService.seqCreate [] [cIn0, cIn1, cIn2]).1.length = 3 ∧
    List.Pairwise (fun a b => a.timestamp < b.timestamp)
      (AuditService.seqCreate [] [cIn0, cIn1, cIn2]).1 ∧
    headPrevIs none (AuditService.seqCreate [] [cIn0, cIn1, cIn2]).1 ∧
    chainLinked (AuditService.seqCreate [] [cIn0, cIn1, cIn2]).1 :=
  C1_sequential_chain "USER" "u1" (by decide) (by decide) [cIn0, cIn1, cIn2] []
    (by decide) (by decide) (by decide)

/- ===================== Claim C4 ===================== -/

/-- C4 (amended): `get_previous_hash` returns null whenever either argument
is absent or the empty string (Python truthiness); otherwise, when no
stored entry matches the pair it returns null, and when some entry matches
it returns the truthy-filtered hash of a matching entry of maximal
timestamp (null when that stored hash is itself null or empty). -/
theorem C4_get_previous_hash (rows : List AuditLog)
    (resource_type resource_id : Option String) :
    ((resource_type = none ∨ resource_id = none ∨
        resource_type = some "" ∨ resource_id = some "") →
      AuditService.get_previous_hash rows resource_type resource_id = none) ∧
    (∀ s t, resource_type = some s → resource_id = some t → s ≠ "" → t ≠ "" →
      ((∀ e ∈ rows, AuditService.entryMatches s t e = false) →
        AuditService.get_previous_hash rows resource_type resource_id = none) ∧
      (∀ e0, e0 ∈ rows → AuditService.entryMatches s t e0 = true →
        ∃ m, m ∈ rows ∧ AuditService.entryMatches s t m = true ∧
          (∀ e2 ∈ rows, AuditService.entryMatches s t e2 = true →
            e2.timestamp ≤ m.timestamp) ∧
          AuditService.get_previous_hash rows resource_type resource_id
            = AuditService.pyTruthyOpt m.hash)) := by
  constructor
  · intro h
    rcases resource_type with _ | s
    · rfl
    rcases resource_id with _ | t
    · rfl
    have hst : s = "" ∨ t = "" := by
      rcases h with h | h | h | h
      · exact absurd h (by simp)
      · exact absurd h (by simp)
      · exact Or.inl (by injection h)
      · exact Or.inr (by injection h)
    have hred : AuditService.get_previous_hash rows (some s) (some t)
        = if s = "" ∨ t = "" then none
          else match AuditService.maxTsMatch s t rows with
            | none => none
            | some e => AuditService.pyTruthyOpt e.hash := rfl
    rw [hred, if_pos hst]
  · intro s t h1 h2 hs ht
    subst h1
    subst h2
    constructor
    · intro hnomatch
      exact get_previous_hash_none_of_nomatch s t rows hnomatch
    · intro e0 he0 hme0
      have hsome : ∃ m, AuditService.maxTsMatch s t rows = some m := by
        rcases hmm : AuditService.maxTsMatch s t rows with _ | m
        · exact absurd hme0
            (by simp [AuditService.maxTsMatch_none_forall s t rows hmm e0 he0])
        · exact ⟨m, rfl⟩
      obtain ⟨m, hm⟩ := hsome
      obtain ⟨hmem, hmatch, hmax⟩ := AuditService.maxTsMatch_spec s t rows m hm
      refine ⟨m, hmem, hmatch, hmax, ?_⟩
      have hred : AuditService.get_previous_hash rows (some s) (some t)
          = if s = "" ∨ t = "" then none
            else match AuditService.maxTsMatch s t rows with
              | none => none
              | some e => AuditService.pyTruthyOpt e.hash := rfl
      rw [hred, if_neg (by simp [hs, ht]), hm]

/-- The single stored row of the C4 counterexample: a present but
empty-string `resourceType`. -/
def blankRtEntry : AuditLog :=
  { logID := "B1", timestamp := 3, resourceType := some "",
    resourceID := some "r1", hash := some "aa" }

/-- C4, counterexample to the claim as stated: with `resourceType` present
(`some ""`, not absent) and a stored entry matching the pair with maximal
timestamp and hash `"aa"`, `get_previous_hash` returns null instead of that
hash, because Python truthiness treats the empty string as absent. -/
theorem C4_blank_resource_type_counterexample :
    blankRtEntry ∈ [blankRtEntry] ∧
    AuditService.entryMatches "" "r1" blankRtEntry = true ∧
    blankRtEntry.hash = some "aa" ∧
    (∀ e2 ∈ [blankRtEntry], AuditService.entryMatches "" "r1" e2 = true →
      e2.timestamp ≤ blankRtEntry.timestamp) ∧
    (some "" : Option String) ≠ none ∧
    AuditService.get_previous_hash [blankRtEntry] (some "") (some "r1") = none ∧
    AuditService.get_previous_hash [blankRtEntry] (some "") (some "r1")
      ≠ blankRtEntry.hash := by
  decide

/-- The single stored row of the C4 witness scenario. -/
def w4Entry : AuditLog :=
  { logID := "W4", timestamp := 9, resourceType := some "USER",
    resourceID := some "u1", hash := some "h1" }

/-- C4, witness: the amended lookup theorem applied to a one-row store with
a proper resource pair. -/
theorem C4_get_previous_hash_witness :
    ∃ m, m ∈ [w4Entry] ∧ AuditService.entryMatches "USER" "u1" m = true ∧
      (∀ e2 ∈ [w4Entry], AuditService.entryMatches "USER" "u1" e2 = true →
        e2.timestamp ≤ m.timestamp) ∧
      AuditService.get_previous_hash [w4Entry] (some "USER") (some "u1")
        = AuditService.pyTruthyOpt m.hash :=
  ((C4_get_previous_hash [w4Entry] (some "USER") (some "u1")).2 "USER" "u1"
    rfl rfl (by decide) (by decide)).2 w4Entry (by decide) (by decide)

/- ===================== Claim C6 ===================== -/

/-- C6: every `create_log` call appends exactly one row and leaves every
previously stored row in place, and the audit route surface only ever
appends: the POST handler appends exactly the supplied row and the GET
handler leaves the store unchanged. -/
theorem C6_append_only (rows : List AuditLog) (inp : AuditService.CreateLogInput)
    (log : AuditLog) (limit : Nat) :
    (AuditService.create_log rows inp).2
      = rows ++ [(AuditService.create_log rows inp).1] ∧
    (AuditService.create_log rows inp).2.length = rows.length + 1 ∧
    (AuditService.create_log rows inp).2.take rows.length = rows ∧
    (create_audit_log rows log).2 = rows ++ [log] ∧
    (create_audit_log rows log).2.length = rows.length + 1 ∧
    (create_audit_log rows log).2.take rows.length = rows ∧
    (get_audit_logs rows limit).2 = rows := by
  refine ⟨rfl, by simp [AuditService.create_log], ?_, rfl,
    by simp [create_audit_log], ?_, rfl⟩
  · have h1 : (AuditService.create_log rows inp).2
        = rows ++ [(AuditService.create_log rows inp).1] := rfl
    rw [h1]
    exact List.take_left rows _
  · have h2 : (create_audit_log rows log).2 = rows ++ [log] := rfl
    rw [h2]
    exact List.take_left rows _

/- ===================== Claim C7 ===================== -/

/-- C7: the `changeDetails` a `create_log` call persists is exactly the
payload built from `fields_modified` — null, or the field-report object
with the field list and its count.  No execution of `create_log` stores
free-form metadata: the function has no `changeDetails` parameter, so the
route calls that pass one (the collection-level listings) raise a
`TypeError` that their blanket exception handler swallows, and no entry is
recorded for them at all. -/
theorem C7_change_details_shape (rows : List AuditLog)
    (inp : AuditService.CreateLogInput) :
    (AuditService.create_log rows inp).1.changeDetails
      = AuditService.buildChangeDetails inp.fields_modified ∧
    ((AuditService.create_log rows inp).1.changeDetails = none ∨
      ∃ fs, inp.fields_modified = some fs ∧ fs ≠ [] ∧
        (AuditService.create_log rows inp).1.changeDetails
          = some (ChangeDetails.fieldsReport fs fs.length)) ∧
    (∀ kvs, ¬ (AuditService.create_log rows inp).1.changeDetails
      = some (ChangeDetails.freeform kvs)) := by
  have h1 : (AuditService.create_log rows inp).1.changeDetails
      = AuditService.buildChangeDetails inp.fields_modified := rfl
  refine ⟨h1, ?_, ?_⟩
  · rw [h1]
    rcases hf : inp.fields_modified with _ | fs
    · exact Or.inl rfl
    · by_cases hfs : fs = []
      · subst hfs
        exact Or.inl (by simp [AuditService.buildChangeDetails])
      · exact Or.inr ⟨fs, rfl, hfs, by simp [AuditService.buildChangeDetails, hfs]⟩
  · intro kvs hcon
    rw [h1] at hcon
    rcases hf : inp.fields_modified with _ | fs
    · rw [hf] at hcon
      exact Option.noConfusion hcon
    · rw [hf] at hcon
      by_cases hfs : fs = []
      · rw [show AuditService.buildChangeDetails (some fs) = none from by
          simp [AuditService.buildChangeDetails, hfs]] at hcon
        exact Option.noConfusion hcon
      · rw [show AuditService.buildChangeDetails (some fs)
            = some (ChangeDetails.fieldsReport fs fs.length) from by
          simp [AuditService.buildChangeDetails, hfs]] at hcon
        exact ChangeDetails.noConfusion (Option.some.inj hcon)

/- ===================== Claim C8 ===================== -/

/-- C8: once `lock(logID)` has run for a stored entry, every update and
every delete attempt against that `logID` is refused by the store with
`LockedEntryError`, whatever patch the caller supplies, and the store is
left unchanged. -/
theorem C8_locked_entry (rows : List AuditLog) (logId : String)
    (patch : AuditLog → AuditLog)
    (hexists : ∃ e, e ∈ rows ∧ e.logID = logId) :
    updateEntry (lockEntry rows logId) logId patch = .error .LockedEntryError ∧
    deleteEntry (lockEntry rows logId) logId = .error .LockedEntryError ∧
    applyUpdate (lockEntry rows logId) logId patch = lockEntry rows logId ∧
    applyDelete (lockEntry rows logId) logId = lockEntry rows logId := by
  obtain ⟨e, hmem, hid⟩ := hexists
  have hmem2 : ({ e with locked := true } : AuditLog) ∈ lockEntry rows logId := by
    unfold lockEntry
    rw [List.mem_map]
    exact ⟨e, hmem, by simp [hid]⟩
  have hany : (lockEntry rows logId).any (fun x => x.logID == logId && x.locked) = true := by
    rw [List.any_eq_true]
    exact ⟨{ e with locked := true }, hmem2, by simp [hid]⟩
  have hu : updateEntry (lockEntry rows logId) logId patch = .error .LockedEntryError := by
    unfold updateEntry
    rw [if_pos hany]
  have hd : deleteEntry (lockEntry rows logId) logId = .error .LockedEntryError := by
    unfold deleteEntry
    rw [if_pos hany]
  refine ⟨hu, hd, ?_, ?_⟩
  · unfold applyUpdate
    rw [hu]
  · unfold applyDelete
    rw [hd]

/-- The stored row of the C8 witness scenario. -/
def w8Entry : AuditLog :=
  { logID := "W8", timestamp := 4, action := some "CREATE_CASE",
    status := some "SUCCESS", hash := some "h8" }

/-- C8, witness: the lock theorem applied to a one-row store and a patch
that tries to flip the stored status. -/
theorem C8_locked_entry_witness :
    updateEntry (lockEntry [w8Entry] "W8") "W8"
      (fun e => { e with status := some "FAIL" }) = .error .LockedEntryError ∧
    deleteEntry (lockEntry [w8Entry] "W8") "W8" = .error .LockedEntryError ∧
    applyUpdate (lockEntry [w8Entry] "W8") "W8"
      (fun e => { e with status := some "FAIL" }) = lockEntry [w8Entry] "W8" ∧
    applyDelete (lockEntry [w8Entry] "W8") "W8" = lockEntry [w8Entry] "W8" :=
  C8_locked_entry [w8Entry] "W8" (fun e => { e with status := some "FAIL" })
    ⟨w8Entry, by decide, rfl⟩

/- ===================== Claim C9 ===================== -/

/-- One of the two equal-timestamp rows of the C9 scenario. -/
def tieEntryA : AuditLog :=
  { logID := "A", timestamp := 5, resourceType := some "USER",
    resourceID := some "u1", hash := some "h1" }

/-- The other equal-timestamp row of the C9 scenario. -/
def tieEntryB : AuditLog :=
  { logID := "B", timestamp := 5, resourceType := some "USER",
    resourceID := some "u1", hash := some "h2" }

/-- C9: on a store holding two entries for the same resource with an
identical timestamp, the previous-hash query — `ORDER BY timestamp DESC
LIMIT 1` with no further ordering — admits both stored hashes as results,
so the lookup the source performs is not a deterministic function of the
store contents and no tie-break consistent with read-side verification
exists in the code. -/
theorem C9_tie_break_nondeterminism :
    tieEntryA.timestamp = tieEntryB.timestamp ∧
    AuditService.getPreviousHashAdmissible [tieEntryA, tieEntryB]
      (some "USER") (some "u1") (some "h1") ∧
    AuditService.getPreviousHashAdmissible [tieEntryA, tieEntryB]
      (some "USER") (some "u1") (some "h2") ∧
    (some "h1" : Option String) ≠ some "h2" := by
  refine ⟨rfl, ?_, ?_, by decide⟩
  · show if ("USER" : String) = "" ∨ ("u1" : String) = "" then (some "h1" : Option String) = none
      else ∃ q, AuditService.firstDescResult [tieEntryA, tieEntryB] "USER" "u1" q ∧
        (some "h1" : Option String) = AuditService.pyTruthyOpt (q.getD none)
    rw [if_neg (by decide)]
    exact ⟨some tieEntryA.hash, Or.inr ⟨tieEntryA, by decide, by decide, by decide, rfl⟩, by decide⟩
  · show if ("USER" : String) = "" ∨ ("u1" : String) = "" then (some "h2" : Option String) = none
      else ∃ q, AuditService.firstDescResult [tieEntryA, tieEntryB] "USER" "u1" q ∧
        (some "h2" : Option String) = AuditService.pyTruthyOpt (q.getD none)
    rw [if_neg (by decide)]
    exact ⟨some tieEntryB.hash, Or.inr ⟨tieEntryB, by decide, by decide, by decide, rfl⟩, by decide⟩

/- ===================== Claim C10 ===================== -/

/-- A caller-supplied row relying on the model defaults: no hash, no
previous hash, no actor. -/
def submittedLog : AuditLog :=
  { logID := "P1", timestamp := 7, action := some "CREATE_CASE",
    status := some "SUCCESS" }

/-- C10: the POST `/audit-logs/` handler persists the supplied row exactly
as given — the response is its field-by-field public view and the store
gains exactly that row — while the model defaults `hash` and
`previousHash` to null and the handler computes neither, so a row whose
stored hash does not equal the hash recomputed from its fields (here: a
null hash) is appended through this surface with no authenticated actor. -/
theorem C10_post_persists_as_supplied (rows : List AuditLog) (log : AuditLog) :
    create_audit_log rows log = (toPublicView log, rows ++ [log]) ∧
    submittedLog.hash = none ∧
    submittedLog.previousHash = none ∧
    submittedLog.actorID = none ∧
    (create_audit_log [] submittedLog).2 = [submittedLog] ∧
    submittedLog.hash ≠ some (recompute_hash submittedLog) := by
  refine ⟨rfl, rfl, rfl, rfl, rfl, ?_⟩
  intro hcon
  exact Option.noConfusion hcon

/- ===================== Claim C3 ===================== -/

/-- The nine-member dictionary `compute_hash` builds, as its members in
source insertion order. -/
def hashInputPairs (log_id : String)
    (actor_id actor_type resource_type resource_id : Option String)
    (action status timestamp : String) (previous_hash : Option String) :
    List (String × Jv) :=
  [("logID", Jv.jstr log_id),
   ("actorID", Jv.ofOpt actor_id),
   ("actorType", Jv.ofOpt actor_type),
   ("resourceType", Jv.ofOpt resource_type),
   ("resourceID", Jv.ofOpt resource_id),
   ("action", Jv.jstr action),
   ("status", Jv.jstr status),
   ("timestamp", Jv.jstr timestamp),
   ("previousHash", Jv.ofOpt previous_hash)]

theorem hashInputPairs_key_inj (log_id : String)
    (actor_id actor_type resource_type resource_id : Option String)
    (action status timestamp : String) (previous_hash : Option String) :
    ∀ a ∈ hashInputPairs log_id actor_id actor_type resource_type resource_id
        action status timestamp previous_hash,
    ∀ b ∈ hashInputPairs log_id actor_id actor_type resource_type resource_id
        action status timestamp previous_hash,
    a.1 = b.1 → a = b := by
  intro a ha b hb hk
  simp only [hashInputPairs, List.mem_cons, List.not_mem_nil, or_false] at ha hb
  rcases ha with rfl | rfl | rfl | rfl | rfl | rfl | rfl | rfl | rfl <;>
    rcases hb with rfl | rfl | rfl | rfl | rfl | rfl | rfl | rfl | rfl <;>
      first
        | rfl
        | simp at hk

/-- C3: `compute_hash` is the SHA-256 digest, in lowercase hex, of the
canonical serialization of its nine fields: the members are sorted by key
into the lexicographic key order, any permutation of the member list — any
construction order of the dictionary — serializes to the same string and
so yields the identical digest, and the output is 64 lowercase hex
characters.  Determinism itself is structural: the embedding is a pure
function of the nine fields. -/
theorem C3_compute_hash_canonical (log_id : String)
    (actor_id actor_type resource_type resource_id : Option String)
    (action status timestamp : String) (previous_hash : Option String)
    (l : List (String × Jv))
    (hl : List.Perm l (hashInputPairs log_id actor_id actor_type resource_type
      resource_id action status timestamp previous_hash)) :
    AuditService.compute_hash log_id actor_id actor_type resource_type resource_id
        action status timestamp previous_hash
      = sha256hex (utf8Encode (jsonDumpsSorted l)) ∧
    (sortOrd pairKeyLe (hashInputPairs log_id actor_id actor_type resource_type
        resource_id action status timestamp previous_hash)).map Prod.fst
      = ["action", "actorID", "actorType", "logID", "previousHash",
         "resourceID", "resourceType", "status", "timestamp"] ∧
    List.Pairwise (fun a b => strLe a b = true ∧ ¬ a = b)
      ["action", "actorID", "actorType", "logID", "previousHash",
       "resourceID", "resourceType", "status", "timestamp"] ∧
    (AuditService.compute_hash log_id actor_id actor_type resource_type resource_id
        action status timestamp previous_hash).length = 64 ∧
    (∀ c ∈ (AuditService.compute_hash log_id actor_id actor_type resource_type
        resource_id action status timestamp previous_hash).data, c ∈ hexDigits) := by
  have htot : ∀ x y : String × Jv, pairKeyLe x y = false → pairKeyLe y x = true :=
    fun x y h => strLe_total x.1 y.1 h
  have htrans : ∀ x y z : String × Jv,
      pairKeyLe x y = true → pairKeyLe y z = true → pairKeyLe x z = true :=
    fun x y z hxy hyz => strLe_trans x.1 y.1 z.1 hxy hyz
  have hperm2 : List.Perm (sortOrd pairKeyLe l)
      (sortOrd pairKeyLe (hashInputPairs log_id actor_id actor_type resource_type
        resource_id action status timestamp previous_hash)) :=
    (sortOrd_perm pairKeyLe l).trans (hl.trans (sortOrd_perm pairKeyLe _).symm)
  have hanti : ∀ a, a ∈ sortOrd pairKeyLe l → ∀ b, b ∈ sortOrd pairKeyLe l →
      pairKeyLe a b = true → pairKeyLe b a = true → a = b := by
    intro a ha b hb hab hba
    have ha2 := hl.mem_iff.mp ((sortOrd_perm pairKeyLe l).mem_iff.mp ha)
    have hb2 := hl.mem_iff.mp ((sortOrd_perm pairKeyLe l).mem_iff.mp hb)
    have hk : a.1 = b.1 := strLe_antisymm a.1 b.1 hab hba
    exact hashInputPairs_key_inj log_id actor_id actor_type resource_type resource_id
      action status timestamp previous_hash a ha2 b hb2 hk
  have hsort : sortOrd pairKeyLe l
      = sortOrd pairKeyLe (hashInputPairs log_id actor_id actor_type resource_type
          resource_id action status timestamp previous_hash) :=
    sorted_perm_eq pairKeyLe _ _ hperm2
      (sortOrd_sorted pairKeyLe htot htrans l)
      (sortOrd_sorted pairKeyLe htot htrans _) hanti
  have hdump : jsonDumpsSorted l
      = jsonDumpsSorted (hashInputPairs log_id actor_id actor_type resource_type
          resource_id action status timestamp previous_hash) := by
    unfold jsonDumpsSorted
    rw [hsort]
  refine ⟨?_, rfl, by decide, compute_hash_length _ _ _ _ _ _ _ _ _, ?_⟩
  · rw [hdump]
    rfl
  · intro c hc
    exact mem_sha256hex_hexDigits _ c hc

/-- C3, witness: the canonical-serialization theorem applied to concrete
fields and the member list given in fully reversed construction order. -/
theorem C3_compute_hash_canonical_witness :
    (sortOrd pairKeyLe (hashInputPairs "L0" none none (some "USER") (some "u1")
        "A" "SUCCESS" "1" none)).map Prod.fst
      = ["action", "actorID", "actorType", "logID", "previousHash",
         "resourceID", "resourceType", "status", "timestamp"] :=
  (C3_compute_hash_canonical "L0" none none (some "USER") (some "u1")
    "A" "SUCCESS" "1" none
    [("previousHash", Jv.ofOpt none),
     ("timestamp", Jv.jstr "1"),
     ("status", Jv.jstr "SUCCESS"),
     ("action", Jv.jstr "A"),
     ("resourceID", Jv.ofOpt (some "u1")),
     ("resourceType", Jv.ofOpt (some "USER")),
     ("actorType", Jv.ofOpt none),
     ("actorID", Jv.ofOpt none),
     ("logID", Jv.jstr "L0")]
    (by decide)).2.1

/- ===================== Claims C2 and C5 ===================== -/

set_option maxRecDepth 1000000

set_option maxHeartbeats 4000000

/-- C2, counterexample to the claim as stated: in the valid three-entry
chain the interior entry has its `ipAddress` — a stored field — altered in
place, yet `verify_chain` still reports `Valid` rather than `Broken` with
`HashMismatch` at that entry, because `ipAddress` (like `changeDetails` and
`locked`) is not part of the `compute_hash` input. -/
theorem C2_unhashed_field_counterexample :
    cS3 = [cE0, cE1, cE2] ∧
    verify_chain cS3 "USER" "u1" = .Valid ∧
    ({ cE1 with ipAddress := some "10.0.0.9" } : AuditLog) ≠ cE1 ∧
    cE1.logID = "L1" ∧
    verify_chain tamperIpStore "USER" "u1" = .Valid ∧
    VerificationResult.Valid ≠ VerificationResult.Broken "L1" BreakReason.HashMismatch := by
  refine ⟨rfl, ?_, ?_, rfl, by decide, by decide⟩
  · exact verify_chain_seqCreate_valid "USER" "u1" (by decide) (by decide)
      [cIn0, cIn1, cIn2] [] (by decide) (by decide) (by decide)
  · intro h
    have h2 : (some "10.0.0.9" : Option String) = (none : Option String) :=
      congrArg AuditLog.ipAddress h
    exact Option.noConfusion h2

/-- C2 (amended): on an untampered chain written by sequential `create_log`
calls for a fresh resource, `verify_chain` returns `Valid`; altering a
hashed stored field of the interior entry of the concrete chain — its
`status` — makes it return `Broken` at that entry with `HashMismatch`; and
redirecting only the `previousHash` of that entry elsewhere makes it return
`Broken` at that entry with `LinkMismatch`.  Stored fields outside the hash
input (`changeDetails`, `ipAddress`, `locked`) are not covered by the
detector. -/
theorem C2_tamper_detection (s t : String) (hs : s ≠ "") (ht : t ≠ "")
    (inputs : List AuditService.CreateLogInput) (rows : List AuditLog)
    (hsame : ∀ i ∈ inputs, i.resource_type = some s ∧ i.resource_id = some t)
    (hpair : List.Pairwise (fun x y => x < y) (inputs.map AuditService.CreateLogInput.now))
    (hnomatch : ∀ e ∈ rows, AuditService.entryMatches s t e = false) :
    verify_chain (AuditService.seqCreate rows inputs).2 s t = .Valid ∧
    verify_chain tamperStatusStore "USER" "u1" = .Broken "L1" .HashMismatch ∧
    verify_chain tamperLinkStore "USER" "u1" = .Broken "L1" .LinkMismatch ∧
    ({ cE1 with status := some "FAIL" } : AuditLog) ≠ cE1 ∧
    cE1.logID = "L1" := by
  refine ⟨verify_chain_seqCreate_valid s t hs ht inputs rows hsame hpair hnomatch,
    by decide, by decide, ?_, rfl⟩
  intro h
  have h2 : (some "FAIL" : Option String) = (some "SUCCESS" : Option String) :=
    congrArg AuditLog.status h
  exact absurd (Option.some.inj h2) (by decide)

/-- C2, witness: the tamper-detection theorem applied to the concrete
three-call scenario on an empty store. -/
theorem C2_tamper_detection_witness :
    verify_chain (AuditService.seqCreate [] [cIn0, cIn1, cIn2]).2 "USER" "u1"
      = .Valid :=
  (C2_tamper_detection "USER" "u1" (by decide) (by decide) [cIn0, cIn1, cIn2] []
    (by decide) (by decide) (by decide)).1

/-- First racing call of the C5 scenario. -/
def rIn1 : AuditService.CreateLogInput :=
  { genLogID := "R1", now := 1, action := "A", status := "SUCCESS",
    resource_type := some "USER", resource_id := some "u1" }

/-- Second racing call of the C5 scenario. -/
def rIn2 : AuditService.CreateLogInput :=
  { genLogID := "R2", now := 2, action := "B", status := "SUCCESS",
    resource_type := some "USER", resource_id := some "u1" }

/-- C5: two concurrent `create_log` calls for the same resource,
interleaved so that both previous-hash reads run before either insert
commits — a schedule nothing in the code excludes, since `create_log`
takes no lock between its read and its write — leave the store with two
distinct sibling entries sharing the same (null) `previousHash`, and the
resulting two-entry store is not a valid chain: `verify_chain` reports
`Broken` at the second entry with `LinkMismatch`. -/
theorem C5_lost_update_race :
    (AuditService.racedCreate [] rIn1 rIn2).1.previousHash = none ∧
    (AuditService.racedCreate [] rIn1 rIn2).2.1.previousHash = none ∧
    (AuditService.racedCreate [] rIn1 rIn2).1.previousHash
      = (AuditService.racedCreate [] rIn1 rIn2).2.1.previousHash ∧
    (AuditService.racedCreate [] rIn1 rIn2).1
      ≠ (AuditService.racedCreate [] rIn1 rIn2).2.1 ∧
    (AuditService.racedCreate [] rIn1 rIn2).2.2
      = [(AuditService.racedCreate [] rIn1 rIn2).1,
         (AuditService.racedCreate [] rIn1 rIn2).2.1] ∧
    verify_chain (AuditService.racedCreate [] rIn1 rIn2).2.2 "USER" "u1"
      = .Broken "R2" .LinkMismatch := by
  refine ⟨rfl, rfl, rfl, ?_, rfl, by decide⟩
  intro h
  have h2 : ("R1" : String) = "R2" := congrArg AuditLog.logID h
  exact absurd h2 (by decide)

/- ===================== Reference vectors ===================== -/

/-- FIPS 180-4 test vector: the embedded SHA-256 digests `abc` to the
standard value. -/
theorem sha256hex_abc_vector :
    sha256hex (utf8Encode "abc")
      = "ba7816bf8f01cfea414140de5dae2223b00361a396177a9cb410ff61f20015ad" := by
  decide

/-- Cross-check of the whole serialization pipeline: `compute_hash` on the
first scenario entry equals the digest CPython produces for
`json.dumps(hash_input, sort_keys=True)` of the same nine fields. -/
theorem compute_hash_reference_vector :
    AuditService.compute_hash "L0" none none (some "USER") (some "u1")
        "A" "SUCCESS" "1" none
      = "4c9e44074cc1809e2127d87dbb5ac94b76940fde282fd1370b37771bca8db7db" := by
  decide
